import Mathlib

/-!
Verification of the Monkey web-scraper core: a shallow embedding, in Lean 4, of the algorithmic core of the Monkey
repository (`monkey/crawler.py`, `monkey/scrape.py`,
`monkey/screenshot_manager.py`):

* the URL canonicalizer `normalize_url` (crawler.py, inside `WebCrawler.Map`),
  together with models of the Python standard-library functions it calls
  (`urllib.parse.urlsplit`, `urlparse`, `urljoin`, `urlunsplit`);
* the link-collection pipeline of `WebCrawler.Map` (set + `sorted`);
* the BFS crawl loop of `WebCrawler.crawl`;
* the output-format dispatch of `Scrape.scrape`;
* the meta-tag extraction of `WebCrawler.extract_meta_tags`;
* the markdown renderer `Scrape._json_to_markdown`;
* the screenshot stitching loop of `ScreenshotManager.capture_full_page`.

External effects (the Selenium driver, BeautifulSoup parsing, the file
system) are modelled as inputs: a page is represented by the data the code
reads from it (its anchors' hrefs, its meta tags, its dimensions, ...).
Strings are Lean `String`s (lists of unicode characters), matching Python
`str` for the ASCII inputs treated here.
-/

namespace Monkey

/-! ## Character and string helpers -/

/-- Python `str.startswith(pre)`. -/
def pyStartsWith (s pre : String) : Bool := pre.data.isPrefixOf s.data

/-- The characters removed by CPython `urlsplit` before parsing
(`_UNSAFE_URL_BYTES_TO_REMOVE = ["\t", "\r", "\n"]`). -/
def isUnsafeUrlChar (c : Char) : Bool := c = '\t' || c = '\r' || c = '\n'

def removeUnsafe (url : List Char) : List Char :=
  url.filter (fun c => !isUnsafeUrlChar c)

/-- CPython `scheme_chars` (letters, digits, `+`, `-`, `.`), checked for the
characters of a candidate scheme after its initial letter. -/
def isSchemeChar (c : Char) : Bool := c.isAlphanum || c = '+' || c = '-' || c = '.'

/-- Split a character list at the first occurrence of `c`
(Python `s.split(c, 1)` when `c` occurs; `none` when it does not). -/
def splitOnFirst (c : Char) : List Char → Option (List Char × List Char)
  | [] => none
  | x :: xs =>
    if x = c then some ([], xs)
    else match splitOnFirst c xs with
      | some (a, b) => some (x :: a, b)
      | none => none

/-- Python `str.split(c)` (full split; `"".split(c) = [""]`). -/
def splitOnChar (c : Char) : List Char → List (List Char)
  | [] => [[]]
  | x :: xs =>
    if x = c then [] :: splitOnChar c xs
    else match splitOnChar c xs with
      | h :: t => (x :: h) :: t
      | [] => [[x]]

/-- Python `str.lower()` restricted to ASCII (sufficient for URL schemes). -/
def lowerList (l : List Char) : List Char := l.map Char.toLower

/-! ## Model of `urllib.parse.urlsplit` / `urlparse`

Translated from CPython `Lib/urllib/parse.py`.  `urlsplit` removes the
unsafe bytes, extracts a scheme when the text before the first `:` is a
letter followed by scheme characters (lower-casing it; otherwise the
caller-supplied default scheme is used and the text is left alone), takes
the netloc after `//` up to the first `/`, `?` or `#`, raises `ValueError`
(modelled as `none`) on unbalanced IPv6 brackets in the netloc, then splits
off the fragment at the first `#` and the query at the first `?`.
`urlparse` additionally splits `;`-parameters off the last path segment for
the schemes in `uses_params`.  (The non-ASCII `_checknetloc` NFKC check is
not modelled; all inputs here are ASCII.) -/

structure USplit where
  scheme : List Char
  netloc : List Char
  path : List Char
  query : List Char
  fragment : List Char
deriving Repr, DecidableEq

/-- Scheme extraction step of `urlsplit`: `i = url.find(':')`, and the prefix
before it qualifies as a scheme iff it is nonempty, starts with a letter and
continues with scheme characters; otherwise the default scheme is kept and
the url is left unchanged. -/
def extractScheme (defaultScheme url : List Char) : List Char × List Char :=
  match splitOnFirst ':' url with
  | some (pre, rest) =>
    (match pre with
     | [] => (defaultScheme, url)
     | c0 :: cs =>
       if c0.isAlpha && cs.all isSchemeChar then (lowerList (c0 :: cs), rest)
       else (defaultScheme, url))
  | none => (defaultScheme, url)

/-- A character terminating the netloc (`/`, `?` or `#`). -/
def isNetlocDelim (c : Char) : Bool := c = '/' || c = '?' || c = '#'

def urlsplitCore (defaultScheme url : List Char) : Option USplit :=
  let url := removeUnsafe url
  let (scheme, rest) := extractScheme defaultScheme url
  let (netloc, rest) :=
    if rest.take 2 = ['/', '/'] then
      ((rest.drop 2).takeWhile (fun c => !isNetlocDelim c),
       (rest.drop 2).dropWhile (fun c => !isNetlocDelim c))
    else ([], rest)
  if ('[' ∈ netloc ∧ ']' ∉ netloc) ∨ (']' ∈ netloc ∧ '[' ∉ netloc) then
    none
  else
    let (rest, fragment) :=
      match splitOnFirst '#' rest with
      | some (a, b) => (a, b)
      | none => (rest, [])
    let (path, query) :=
      match splitOnFirst '?' rest with
      | some (a, b) => (a, b)
      | none => (rest, [])
    some ⟨scheme, netloc, path, query, fragment⟩

structure SplitResult where
  scheme : String
  netloc : String
  path : String
  query : String
  fragment : String
deriving Repr, DecidableEq

/-- Model of `urllib.parse.urlsplit(url, scheme=defaultScheme)`; `none` models
the `ValueError` raised on an invalid IPv6 netloc. -/
def urlsplit (url : String) (defaultScheme : String := "") : Option SplitResult :=
  (urlsplitCore defaultScheme.data url.data).map fun u =>
    ⟨⟨u.scheme⟩, ⟨u.netloc⟩, ⟨u.path⟩, ⟨u.query⟩, ⟨u.fragment⟩⟩

/-- CPython `uses_params`: schemes whose path gets `;`-parameters split off. -/
def uses_params : List String :=
  ["", "ftp", "hdl", "prospero", "http", "imap", "https", "shttp", "rtsp",
   "rtspu", "sip", "sips", "mms", "sftp", "tel"]

/-- Split a list at its last occurrence of `c`:
`splitOnLast c l = some (a, b)` with `l = a ++ c :: b` and `c ∉ b`. -/
def splitOnLast (c : Char) (l : List Char) : Option (List Char × List Char) :=
  match splitOnFirst c l.reverse with
  | some (b, a) => some (a.reverse, b.reverse)
  | none => none

/-- CPython `_splitparams(url)`: look for `;` starting at the last `/`
(or from the beginning when there is no `/`); when found, everything after
the first such `;` becomes the params. -/
def splitparamsCore (path : List Char) : List Char × List Char :=
  match splitOnLast '/' path with
  | some (pre, post) =>
    (match splitOnFirst ';' post with
     | some (a, b) => (pre ++ '/' :: a, b)
     | none => (path, []))
  | none =>
    match splitOnFirst ';' path with
    | some (a, b) => (a, b)
    | none => (path, [])

structure ParseResult where
  scheme : String
  netloc : String
  path : String
  params : String
  query : String
  fragment : String
deriving Repr, DecidableEq

/-- Model of `urllib.parse.urlparse(url, scheme=defaultScheme)`. -/
def urlparse (url : String) (defaultScheme : String := "") : Option ParseResult :=
  (urlsplit url defaultScheme).map fun u =>
    if u.scheme ∈ uses_params ∧ ';' ∈ u.path.data then
      let (p, params) := splitparamsCore u.path.data
      ⟨u.scheme, u.netloc, ⟨p⟩, ⟨params⟩, u.query, u.fragment⟩
    else
      ⟨u.scheme, u.netloc, u.path, "", u.query, u.fragment⟩

/-! ## Model of `urllib.parse.urlunsplit` and `urljoin`

Translated from CPython `Lib/urllib/parse.py`.  `urljoin` can raise (via
`urlsplit`, on invalid IPv6 netlocs), hence returns `Option`. -/

def urlunsplit (scheme netloc path query fragment : String) : String :=
  let url :=
    if netloc ≠ "" ∨ (path ≠ "" ∧ pyStartsWith path "//") then
      "//" ++ netloc ++ (if path ≠ "" ∧ ¬ pyStartsWith path "/" then "/" ++ path else path)
    else path
  let url := if scheme ≠ "" then scheme ++ ":" ++ url else url
  let url := if query ≠ "" then url ++ "?" ++ query else url
  if fragment ≠ "" then url ++ "#" ++ fragment else url

/-- CPython `uses_relative`. -/
def uses_relative : List String :=
  ["", "ftp", "http", "gopher", "nntp", "imap", "wais", "file", "https",
   "shttp", "mms", "prospero", "rtsp", "rtspu", "sftp", "svn", "svn+ssh",
   "ws", "wss"]

/-- CPython `uses_netloc`. -/
def uses_netloc : List String :=
  ["", "ftp", "http", "gopher", "nntp", "telnet", "imap", "wais", "file",
   "mms", "https", "shttp", "snews", "prospero", "rtsp", "rtspu", "rsync",
   "svn", "svn+ssh", "sftp", "nfs", "git", "git+ssh", "ws", "wss"]

/-- Python `str.split('/')` returning Lean strings. -/
def splitSlash (s : String) : List String := (splitOnChar '/' s.data).map String.mk

/-- Model of `segments[1:-1] = filter(None, segments[1:-1])`: drop empty
strings from a list except for its first and last elements. -/
def filterKeepLast : List String → List String
  | [] => []
  | [a] => [a]
  | a :: rest => if a = "" then filterKeepLast rest else a :: filterKeepLast rest

def filterMiddle : List String → List String
  | [] => []
  | [a] => [a]
  | a :: rest => a :: filterKeepLast rest

/-- The dot-segment resolution loop of `urljoin` (`resolved_path`), where
`..` pops the accumulator (`pass` on an empty one) and `.` is skipped. -/
def resolveSegs (acc : List String) : List String → List String
  | [] => acc
  | s :: rest =>
    if s = ".." then resolveSegs acc.dropLast rest
    else if s = "." then resolveSegs acc rest
    else resolveSegs (acc ++ [s]) rest

/-- Model of `urllib.parse.urljoin(base, url)`. -/
def urljoin (base url : String) : Option String :=
  if base = "" then some url
  else if url = "" then some base
  else do
    let b ← urlsplit base ""
    let u ← urlsplit url b.scheme
    if u.scheme ≠ b.scheme ∨ u.scheme ∉ uses_relative then
      some url
    else if u.scheme ∈ uses_netloc ∧ u.netloc ≠ "" then
      some (urlunsplit u.scheme u.netloc u.path u.query u.fragment)
    else
      let netloc := if u.scheme ∈ uses_netloc then b.netloc else u.netloc
      if u.path = "" ∧ u.query = "" then
        some (urlunsplit u.scheme netloc b.path b.query u.fragment)
      else
        let baseParts0 := splitSlash b.path
        let baseParts :=
          if baseParts0.getLast? ≠ some "" then baseParts0.dropLast else baseParts0
        let segments :=
          if pyStartsWith u.path "/" then splitSlash u.path
          else filterMiddle (baseParts ++ splitSlash u.path)
        let resolved := resolveSegs [] segments
        let resolved :=
          if segments.getLast? = some "." ∨ segments.getLast? = some ".." then
            resolved ++ [""]
          else resolved
        let joined := String.intercalate "/" resolved
        some (urlunsplit u.scheme netloc (if joined = "" then "/" else joined)
          u.query u.fragment)

/-! ## The URL canonicalizer: `normalize_url` (crawler.py, `WebCrawler.Map`)

```python
def normalize_url(url: str) -> Optional[str]:
    if not url or url.startswith(('javascript:', 'mailto:', 'tel:', '#', 'data:')):
        return None
    if base_url and not url.startswith(('http://', 'https://')):
        url = urljoin(base_url, url)
    elif not url.startswith(('http://', 'https://')):
        url = urljoin(current_url, url)
    try:
        parsed = urlparse(url)
        normalized = f"{parsed.scheme}://{parsed.netloc}{parsed.path}"
        if parsed.query:
            normalized += f"?{parsed.query}"
        return normalized
    except Exception:
        return None
```

The `try` block only guards `urlparse`; an exception raised by `urljoin`
escapes `normalize_url` (caught further out, by `Map`'s own handler).  Hence
three outcomes: the link is dropped (`None`), a canonical string is
produced, or an exception propagates. -/

inductive NormResult where
  | raised : NormResult
  | dropped : NormResult
  | ok : String → NormResult
deriving Repr, DecidableEq

/-- Model of `normalize_url`.  `base_url` is the optional `base_url` argument of
`Map` (a Python `None`-able string, falsy when empty); `current_url` is
`self.driver.current_url`. -/
def normalize_url (base_url : Option String) (current_url url : String) : NormResult :=
  if url = "" ∨ pyStartsWith url "javascript:" ∨ pyStartsWith url "mailto:" ∨
      pyStartsWith url "tel:" ∨ pyStartsWith url "#" ∨ pyStartsWith url "data:" then
    .dropped
  else
    let isAbs := pyStartsWith url "http://" ∨ pyStartsWith url "https://"
    let joined : Option String :=
      match base_url with
      | some b =>
        if b ≠ "" ∧ ¬ isAbs then urljoin b url
        else if ¬ isAbs then urljoin current_url url
        else some url
      | none => if ¬ isAbs then urljoin current_url url else some url
    match joined with
    | none => .raised
    | some u2 =>
      match urlparse u2 with
      | none => .dropped
      | some parsed =>
        let normalized := parsed.scheme ++ "://" ++ parsed.netloc ++ parsed.path
        .ok (if parsed.query ≠ "" then normalized ++ "?" ++ parsed.query else normalized)

/-! ## Link collection: `WebCrawler.Map` (crawler.py 392–452)

`Map` walks the page's anchors, normalizes each `href`, optionally applies
the regex filter, accumulates the survivors in a Python `set`, and returns
`sorted(list(links))`.  Its outer `try` catches any exception (in particular
one escaping `normalize_url`) and returns `{"status": "error", "links": []}`.
The page is represented by the document-ordered list of its anchors' `href`
values; the compiled regex filter by an abstract predicate. -/

/-- The per-anchor accumulation loop of `Map` (without assets, as called by
`Scrape.scrape` and `WebCrawler.crawl`): `none` models an exception escaping
a `normalize_url` call, aborting the whole collection. -/
def collectLinkStep (base_url : Option String) (current_url : String)
    (filterPat : Option (String → Bool)) (acc : Option (List String))
    (h : String) : Option (List String) := do
  let s ← acc
  match normalize_url base_url current_url h with
  | .raised => none
  | .dropped => some s
  | .ok u =>
    match filterPat with
    | some p => if p u then some (s ++ [u]) else some s
    | none => some (s ++ [u])

def collectLinks (base_url : Option String) (current_url : String)
    (filterPat : Option (String → Bool)) (hrefs : List String) :
    Option (List String) :=
  hrefs.foldl (collectLinkStep base_url current_url filterPat) (some [])

/-- Python `sorted(list(s))` for a set `s` accumulated from a list:
the distinct elements in ascending (lexicographic) order. -/
def pySortedSet (l : List String) : List String :=
  List.insertionSort (· ≤ ·) l.dedup

/-- The `"links"` value returned by `Map`: sorted set of the normalized
anchors, or `[]` when the collection raised (error status). -/
def mapLinks (base_url : Option String) (current_url : String)
    (filterPat : Option (String → Bool)) (hrefs : List String) : List String :=
  match collectLinks base_url current_url filterPat hrefs with
  | some l => pySortedSet l
  | none => []

/-! ## The crawl loop: `WebCrawler.crawl` (crawler.py 668–724)

```python
queue = [(start_url, 0)]
seen = set()
results = {}
base_domain = urlparse(start_url).netloc
while queue:
    url, depth = queue.pop(0)
    if url in seen or depth > max_depth:
        continue
    seen.add(url)
    ... scrape url, record results[url] ...
    if depth < max_depth:
        links = ... # per-page link list ("links" format or Map fallback; [] on error)
        for link in links:
            parsed = urlparse(link)
            if not parsed.scheme.startswith("http"):
                continue
            if not follow_subdomains and parsed.netloc != base_domain:
                continue
            if link not in seen:
                queue.append((link, depth + 1))
return results
```

The scraper and the per-page link extraction are external (browser) work;
they are modelled by `pages : String → List String`, the link list the loop
obtains for each url (`[]` when extraction failed).  `results` is an
insertion-ordered dict keyed by url, modelled as the list of processed urls
in order; `log` additionally records every dequeued `(url, depth)` pair in
dequeue order, so that the BFS ordering can be stated.  A per-link
`urlparse` call may raise (uncaught in `crawl`), hence `Option`. -/

structure CrawlCfg where
  pages : String → List String
  maxDepth : Nat
  followSubdomains : Bool
  baseDomain : String

structure CrawlState where
  queue : List (String × Nat)
  seen : List String
  results : List String
  log : List (String × Nat)
deriving Repr, DecidableEq

/-- The link-admission loop (crawler.py 715–723): a link is enqueued iff its
scheme starts with `"http"`, its netloc matches the seed's (unless
`follow_subdomains`), and it is not in `seen`.  `none` models an uncaught
`urlparse` exception. -/
def admitLinks (cfg : CrawlCfg) (seen : List String) :
    List String → Option (List String)
  | [] => some []
  | l :: rest => do
    let p ← urlparse l
    let keep := pyStartsWith p.scheme "http" &&
      (cfg.followSubdomains || p.netloc == cfg.baseDomain) &&
      !(seen.contains l)
    let more ← admitLinks cfg seen rest
    some (if keep then l :: more else more)

/-- One iteration of the `while queue:` loop.  `some none` means the queue
was empty (loop exit); `none` means an exception was raised. -/
def crawlStep (cfg : CrawlCfg) (st : CrawlState) : Option (Option CrawlState) :=
  match st.queue with
  | [] => some none
  | (url, depth) :: rest =>
    let st0 : CrawlState :=
      { st with queue := rest, log := st.log ++ [(url, depth)] }
    if url ∈ st.seen ∨ depth > cfg.maxDepth then some (some st0)
    else
      let st1 : CrawlState :=
        { st0 with seen := url :: st0.seen, results := st0.results ++ [url] }
      if depth < cfg.maxDepth then
        match admitLinks cfg st1.seen (cfg.pages url) with
        | none => none
        | some ls =>
          some (some { st1 with queue := rest ++ ls.map (fun l => (l, depth + 1)) })
      else some (some st1)

/-- Run the loop for at most `fuel` iterations (the loop itself terminates
because every iteration pops one entry and the link universe is finite; the
claims below hold for every reachable state, so fuel-indexed runs settle
them). -/
def crawlRun (cfg : CrawlCfg) : Nat → CrawlState → Option CrawlState
  | 0, st => some st
  | fuel + 1, st =>
    match crawlStep cfg st with
    | none => none
    | some none => some st
    | some (some st') => crawlRun cfg fuel st'

def crawlInit (start_url : String) : CrawlState :=
  ⟨[(start_url, 0)], [], [], []⟩

/-- Model of `WebCrawler.crawl`: compute `base_domain` from the seed, then run
the loop. -/
def crawl (start_url : String) (maxDepth : Nat) (followSubdomains : Bool)
    (pages : String → List String) (fuel : Nat) : Option CrawlState := do
  let p ← urlparse start_url
  crawlRun ⟨pages, maxDepth, followSubdomains, p.netloc⟩ fuel (crawlInit start_url)

/-! ## Python-dict model (insertion-ordered, update-in-place) -/

def dictInsert {α : Type} : List (String × α) → String → α → List (String × α)
  | [], k, v => [(k, v)]
  | (k', v') :: rest, k, v =>
    if k' = k then (k, v) :: rest else (k', v') :: dictInsert rest k v

def dictGet {α : Type} : List (String × α) → String → Option α
  | [], _ => none
  | (k', v) :: rest, k => if k' = k then some v else dictGet rest k

/-! ## Output-format dispatch: `Scrape.scrape` (scrape.py 27–86)

```python
for format in output_formats:
    if format == "markdown": results["formats"]["markdown"] = self._get_markdown()
    elif format == "json": ...
    elif format == "html": ...
    elif format == "rawHtml": ...
    elif format == "screenshot": results["formats"]["screenshot"] = ...
    elif format == "screenshot@fullPage": results["formats"]["screenshot"] = ...
    elif format == "links": ...
```

There is no `else` branch: a format name matching none of the seven
recognized names writes nothing and raises nothing.  The per-format
producers are external page content, modelled as fields of `PageContent`;
the `try/except` around the whole body only catches browser/driver
exceptions, which are outside this model, so the modelled `scrape` returns
its `error` field as `none`. -/

inductive FormatValue where
  | text : String → FormatValue
  | structured : String → FormatValue
  | shot : String → FormatValue
  | linkList : List String → FormatValue
deriving Repr, DecidableEq

structure PageContent where
  markdown : String
  jsonData : String
  source : String
  shotViewport : String
  shotFullPage : String
  links : List String
deriving Repr, DecidableEq

/-- One iteration of the `for format in output_formats:` dispatch; an
unrecognized name matches no branch and leaves the dict unchanged. -/
def scrapeFormatStep (pg : PageContent) (d : List (String × FormatValue))
    (f : String) : List (String × FormatValue) :=
  if f = "markdown" then dictInsert d "markdown" (.text pg.markdown)
  else if f = "json" then dictInsert d "json" (.structured pg.jsonData)
  else if f = "html" then dictInsert d "html" (.text pg.source)
  else if f = "rawHtml" then dictInsert d "rawHtml" (.text pg.source)
  else if f = "screenshot" then dictInsert d "screenshot" (.shot pg.shotViewport)
  else if f = "screenshot@fullPage" then dictInsert d "screenshot" (.shot pg.shotFullPage)
  else if f = "links" then dictInsert d "links" (.linkList pg.links)
  else d

def scrapeFormats (pg : PageContent) (output_formats : List String) :
    List (String × FormatValue) :=
  output_formats.foldl (scrapeFormatStep pg) []

structure ScrapeResult where
  formats : List (String × FormatValue)
  error : Option String
deriving Repr, DecidableEq

/-- The result `Scrape.scrape` returns on the non-exceptional path. -/
def scrape (pg : PageContent) (output_formats : List String) : ScrapeResult :=
  ⟨scrapeFormats pg output_formats, none⟩

/-- The format names `Scrape.scrape` recognizes. -/
def recognizedFormats : List String :=
  ["markdown", "json", "html", "rawHtml", "screenshot", "screenshot@fullPage", "links"]

/-! ## Meta-tag extraction: `WebCrawler.extract_meta_tags` (crawler.py 454–505)

A page is represented by what the extractor reads from it: the `<meta>`
tags in document order (each with optional `name`, `property` and `content`
attributes), the `<html>` element's `lang` attribute, the favicon `href`,
the `<title>` text, plus the generated `scrapeId` and the driver's current
url. -/

inductive MVal where
  | s : String → MVal
  | l : List String → MVal
  | n : Int → MVal
deriving Repr, DecidableEq

structure MetaTag where
  nameAttr : Option String
  propAttr : Option String
  content : Option String
deriving Repr, DecidableEq

structure PageMeta where
  scrapeId : String
  currentUrl : String
  htmlLang : Option String
  metas : List MetaTag
  faviconHref : Option String
  titleText : Option String
deriving Repr, DecidableEq

/-- The keys accumulated into ordered lists
(`['og:title', 'og:url', 'og:description', 'og:image']`). -/
def multiValuedKeys : List String := ["og:title", "og:url", "og:description", "og:image"]

/-- The `<meta>`-loop body: `name = meta.get('name', meta.get('property', ''))`,
skip when name or content is falsy, multi-valued keys append to a list
(created on first sight), all other keys overwrite. -/
def metaLoopStep (d : List (String × MVal)) (tag : MetaTag) : List (String × MVal) :=
  let name := match tag.nameAttr with
    | some s => s
    | none => tag.propAttr.getD ""
  let content := tag.content.getD ""
  if name ≠ "" ∧ content ≠ "" then
    if name ∈ multiValuedKeys then
      -- `if name not in meta_tags: meta_tags[name] = []` then
      -- `meta_tags[name].append(content)` (the stored value is always a list)
      match dictGet d name with
      | some (.l vs) => dictInsert d name (.l (vs ++ [content]))
      | _ => dictInsert d name (.l [content])
    else dictInsert d name (.s content)
  else d

/-- The `if key not in meta_tags: meta_tags[key] = default` pattern used for
the `og:type` and `viewport` defaults. -/
def metaDefaultInsert (key : String) (v : MVal) (d : List (String × MVal)) :
    List (String × MVal) :=
  if (dictGet d key).isNone then dictInsert d key v else d

/-- The post-processing after the `<meta>` loop: favicon, title,
`og:site_name` defaulted from title, `og:type` and `viewport` defaults. -/
def metaPostProcess (pg : PageMeta) (d1 : List (String × MVal)) :
    List (String × MVal) :=
  let d2 := match pg.faviconHref with
    | some h => if h ≠ "" then dictInsert d1 "favicon" (.s h) else d1
    | none => d1
  let d3 := match pg.titleText with
    | some t => dictInsert d2 "title" (.s t)
    | none => d2
  let d4 := match dictGet d3 "og:site_name", dictGet d3 "title" with
    | none, some t => dictInsert d3 "og:site_name" t
    | _, _ => d3
  metaDefaultInsert "viewport" (.s "width=device-width, initial-scale=1")
    (metaDefaultInsert "og:type" (.s "website") d4)

def extract_meta_tags (pg : PageMeta) : List (String × MVal) :=
  let d0 : List (String × MVal) :=
    [("scrapeId", .s pg.scrapeId), ("sourceURL", .s pg.currentUrl),
     ("statusCode", .n 200), ("url", .s pg.currentUrl),
     ("language", .s (pg.htmlLang.getD "en-US"))]
  metaPostProcess pg (pg.metas.foldl metaLoopStep d0)

/-! ## Markdown renderer: `Scrape._json_to_markdown` (scrape.py 301–409)

The document model the renderer consumes (the dict shape built by
`Scrape._extract_json`): title, sections (headline / description / content /
links / one level of subsections), reviews, and a metadata dict.  Absent or
empty fields are both falsy in Python; they are modelled as `""` / `[]`. -/

structure LinkRef where
  text : String
  url : String
deriving Repr, DecidableEq

structure Subsection where
  headline : String
  description : String
  content : String
  links : List LinkRef
deriving Repr, DecidableEq

structure DocSection where
  headline : String
  description : String
  content : String
  links : List LinkRef
  subsections : List Subsection
deriving Repr, DecidableEq

structure Review where
  author : String
  date : String
  text : String
  platform : String
  rating : String
  read_more : Bool
  verified : Bool
deriving Repr, DecidableEq

structure Document where
  title : String
  sections : List DocSection
  reviews : List Review
  metadata : List (String × MVal)
deriving Repr

/-- Python whitespace for `str.strip()` (ASCII portion). -/
def isPySpace (c : Char) : Bool :=
  c = ' ' || c = '\t' || c = '\n' || c = '\r' || c = '\x0b' || c = '\x0c'

/-- Python `str.strip()`. -/
def pyStrip (s : String) : String :=
  ⟨((s.data.dropWhile isPySpace).reverse.dropWhile isPySpace).reverse⟩

/-- One link, as appended by the renderer (a blank line follows each). -/
def linkLines (link : LinkRef) : List String :=
  if pyStartsWith link.url "http://" ∨ pyStartsWith link.url "https://" then
    ["[Redirect to " ++ link.url ++ "](" ++ link.url ++ ")", ""]
  else
    ["[" ++ link.text ++ "](" ++ link.url ++ ")", ""]

def subsectionLines (sub : Subsection) : List String :=
  (if sub.headline ≠ "" then ["## " ++ sub.headline, ""] else []) ++
  (if sub.description ≠ "" then [sub.description, ""] else []) ++
  (if sub.content ≠ "" ∧ sub.content ≠ sub.description then [sub.content, ""] else []) ++
  sub.links.foldl (fun acc l => acc ++ linkLines l) []

def sectionLines (sec : DocSection) : List String :=
  (if sec.headline ≠ "" then
    [(if pyStartsWith sec.headline "#" then sec.headline
      else "# **" ++ sec.headline ++ "**"), ""]
   else []) ++
  (if sec.description ≠ "" then [sec.description, ""] else []) ++
  (if sec.content ≠ "" ∧ sec.content ≠ sec.description then [sec.content, ""] else []) ++
  sec.links.foldl (fun acc l => acc ++ linkLines l) [] ++
  sec.subsections.foldl (fun acc s => acc ++ subsectionLines s) []

/-- The `review_parts` block of one review: non-empty fields in the order
author, date, `on {platform}`, rating, text (followed by `Read more` when
flagged), emitted followed by one blank line — nothing at all when every
part is empty. -/
def reviewLines (r : Review) : List String :=
  let parts :=
    (if r.author ≠ "" then [r.author] else []) ++
    (if r.date ≠ "" then [r.date] else []) ++
    (if r.platform ≠ "" then ["on " ++ r.platform] else []) ++
    (if r.rating ≠ "" then [r.rating] else []) ++
    (if r.text ≠ "" then [r.text] ++ (if r.read_more then ["Read more"] else [])
     else [])
  if parts ≠ [] then parts ++ [""] else []

/-- The fixed metadata allow-list rendered at the end. -/
def importantFields : List String :=
  ["title", "description", "og:title", "og:description",
   "og:image", "twitter:image", "language", "viewport"]

/-- Python `f"{field}: {value}"` for a scalar metadata value. -/
def mvalStr : MVal → String
  | .s v => v
  | .l _ => ""  -- unreachable: list values take the per-element branch
  | .n i => toString i

/-- Python truthiness of a metadata value. -/
def mvalTruthy : MVal → Bool
  | .s v => v ≠ ""
  | .l vs => vs ≠ []
  | .n i => i ≠ 0

def metadataLines (meta : List (String × MVal)) : List String :=
  if meta ≠ [] then
    ["---", ""] ++
    importantFields.foldl
      (fun acc field =>
        match dictGet meta field with
        | some value =>
          if mvalTruthy value then
            acc ++ (match value with
              | .l vs => vs.map (fun v => field ++ ": " ++ v)
              | v => [field ++ ": " ++ mvalStr v]) ++ [""]
          else acc
        | none => acc)
      []
  else []

/-- Model of `Scrape._json_to_markdown`: build the line list in document
order, join with newlines, and strip the result. -/
def json_to_markdown (d : Document) : String :=
  let md :=
    (if d.title ≠ "" then [d.title, ""] else []) ++
    d.sections.foldl (fun acc s => acc ++ sectionLines s) [] ++
    (if d.reviews ≠ [] then
      ["# **Why We're #1 on Amazon**", ""] ++
      d.reviews.foldl (fun acc r => acc ++ reviewLines r) []
     else []) ++
    metadataLines d.metadata
  pyStrip (String.intercalate "\n" md)

/-! ## Screenshot stitching: `ScreenshotManager.capture_full_page`
(screenshot_manager.py 46–82)

```python
total_height = driver.execute_script("return document.body.scrollHeight")
total_width = driver.execute_script("return document.body.scrollWidth")
viewport_height = driver.execute_script("return window.innerHeight")
full_screenshot = Image.new('RGB', (total_width, total_height))
for y in range(0, total_height, viewport_height):
    driver.execute_script(f"window.scrollTo(0, {y})")
    time.sleep(0.5)
    screenshot = driver.get_screenshot_as_png()
    viewport = Image.open(screenshot)
    full_screenshot.paste(viewport, (0, y))
```

An image is modelled by its dimensions (the property under test);
`PIL.Image.paste` writes pixels into the canvas and never changes the
canvas's size, so `paste` is dimension-invariant.  The scroll-and-capture
callback is the external driver capture, one invocation per loop
iteration. -/

structure Image where
  width : Nat
  height : Nat
deriving Repr, DecidableEq

/-- Model of `PIL.Image.paste(viewport, (x, y))`: the canvas keeps its
dimensions. -/
def pasteImage (canvas : Image) (_viewport : Image) (_pos : Nat × Nat) : Image :=
  canvas

/-- Python `range(start, stop, step)` for `step > 0` (`range` with a zero
step raises; modelled as the empty list, never hit by the code since the
viewport height is positive). -/
def pyRange (start stop step : Nat) : List Nat :=
  if step = 0 then [] else List.range' start ((stop - start + step - 1) / step) step

/-- The stitching loop: returns the stitched canvas together with the list
of scroll offsets at which the capture callback was invoked, in order. -/
def capture_full_page (total_height total_width viewport_height : Nat)
    (captureAt : Nat → Image) : Image × List Nat :=
  let offsets := pyRange 0 total_height viewport_height
  (offsets.foldl (fun canvas y => pasteImage canvas (captureAt y) (0, y))
    (Image.mk total_width total_height), offsets)

/-! ## Derived definitions used by the verification -/

/-- Well-formedness of a netloc character: not a netloc delimiter, not an
unsafe byte, not an IPv6 bracket. -/
abbrev GoodNetlocChar (c : Char) : Prop :=
  isNetlocDelim c = false ∧ isUnsafeUrlChar c = false ∧ c ≠ '[' ∧ c ≠ ']'

/-- Well-formedness of a path character: no query/fragment/params
delimiters, no unsafe bytes. -/
abbrev GoodPathChar (c : Char) : Prop :=
  c ≠ '?' ∧ c ≠ '#' ∧ c ≠ ';' ∧ isUnsafeUrlChar c = false

/-- Well-formedness of a query character: no fragment delimiter, no unsafe
bytes. -/
abbrev GoodQueryChar (c : Char) : Prop :=
  c ≠ '#' ∧ isUnsafeUrlChar c = false

/-- Well-formedness of a (lower-case) scheme: nonempty, a letter followed by
scheme characters, no colon, no unsafe bytes, fixed by lower-casing. -/
def GoodScheme (s : List Char) : Prop :=
  (∀ y, s.head? = some y → y.isAlpha = true) ∧
  (∀ c ∈ s.tail, isSchemeChar c = true) ∧
  ':' ∉ s ∧ (∀ c ∈ s, isUnsafeUrlChar c = false) ∧ s ≠ [] ∧ lowerList s = s

/-- Build a URL from scheme, netloc, path, optional query and optional
fragment (empty means absent). -/
def mkUrlChars (s n p q f : List Char) : List Char :=
  s ++ ':' :: '/' :: '/' ::
    (n ++ p ++ (if q = [] then [] else '?' :: q) ++ (if f = [] then [] else '#' :: f))

/-- String form of `mkUrlChars`:
`s://n p [?q] [#f]` with empty `q`/`f` meaning absent. -/
def mkUrl (s n p q f : String) : String :=
  ⟨mkUrlChars s.data n.data p.data q.data f.data⟩

/-- The canonical string `normalize_url` produces from parsed components. -/
def canonicalForm (s n p q : String) : String :=
  s ++ "://" ++ n ++ p ++ (if q ≠ "" then "?" ++ q else "")

/-- Well-formedness of the components of an absolute http(s) URL: a literal
lower-case http or https scheme, delimiter-free netloc, a path that is empty
or starts with `/` and contains no `?`, `#` or `;`, a query without `#`, and
no unsafe bytes anywhere. -/
abbrev GoodAbsUrl (s n p q f : String) : Prop :=
  (s = "http" ∨ s = "https") ∧
  (∀ c ∈ n.data, GoodNetlocChar c) ∧
  (∀ c ∈ p.data, GoodPathChar c) ∧
  (p = "" ∨ p.data.head? = some '/') ∧
  (∀ c ∈ q.data, GoodQueryChar c) ∧
  (∀ c ∈ f.data, isUnsafeUrlChar c = false)

/-- Depth comparison on frontier/log entries. -/
def depthLe (a b : String × Nat) : Prop := a.2 ≤ b.2

/-- The invariant maintained by the crawl loop: the frontier is sorted by
depth and spans at most two consecutive depths, the dequeue log is sorted by
depth and bounded by every queued depth, and the scraped urls are distinct
and all marked seen. -/
structure CrawlInv (st : CrawlState) : Prop where
  qSorted : st.queue.Pairwise depthLe
  qSpread : ∀ a ∈ st.queue, ∀ b ∈ st.queue, a.2 ≤ b.2 + 1
  logSorted : st.log.Pairwise depthLe
  logQueue : ∀ a ∈ st.log, ∀ b ∈ st.queue, a.2 ≤ b.2
  resNodup : st.results.Nodup
  resSeen : ∀ u ∈ st.results, u ∈ st.seen

/-- A three-page site where two depth-1 pages both link to the same
depth-2 page. -/
def pagesDiamond : String → List String := fun u =>
  if u = "http://a.com/" then ["http://a.com/p1", "http://a.com/p2"]
  else if u = "http://a.com/p1" then ["http://a.com/p3"]
  else if u = "http://a.com/p2" then ["http://a.com/p3"]
  else []

/-- A seed page linking to an unrelated domain and to a subdomain. -/
def pagesOffsite : String → List String := fun u =>
  if u = "http://a.com/" then ["http://x.com/", "http://b.a.com/"] else []

/-- The document of the end-to-end rendering scenario: no title, one
section with headline `"Hi"` and everything else empty, no reviews, no
metadata. -/
def docHi : Document := ⟨"", [⟨"Hi", "", "", [], []⟩], [], []⟩

/-- The value a successful, unfiltered `normalize_url` call contributes to
the link set (nothing on a dropped link). -/
def extractOkLink (base_url : Option String) (current_url : String)
    (h : String) : Option String :=
  match normalize_url base_url current_url h with
  | .ok u => some u
  | _ => none

/-- A concrete page-content fixture. -/
def pgDemo : PageContent :=
  ⟨"demo markdown", "demo json", "<html></html>", "shot-v.png", "shot-f.png",
   ["http://a.com/"]⟩

/-! ## Lemmas about the splitting helpers -/

theorem splitOnFirst_of_not_mem {c : Char} {l : List Char} (h : c ∉ l) :
    splitOnFirst c l = none := by
  induction l with
  | nil => rfl
  | cons x xs ih =>
    simp only [List.mem_cons, not_or] at h
    simp [splitOnFirst, Ne.symm h.1, ih h.2]

theorem splitOnFirst_append {c : Char} {a : List Char} (b : List Char) (h : c ∉ a) :
    splitOnFirst c (a ++ c :: b) = some (a, b) := by
  induction a with
  | nil => simp [splitOnFirst]
  | cons x xs ih =>
    simp only [List.mem_cons, not_or] at h
    simp [splitOnFirst, Ne.symm h.1, ih h.2]

theorem takeWhile_dropWhile_append {p : Char → Bool} {a b : List Char}
    (ha : ∀ x ∈ a, p x = true) (hb : ∀ y, b.head? = some y → p y = false) :
    (a ++ b).takeWhile p = a ∧ (a ++ b).dropWhile p = b := by
  induction a with
  | nil =>
    cases b with
    | nil => simp
    | cons y ys =>
      have hy := hb y rfl
      simp [List.takeWhile_cons, List.dropWhile_cons, hy]
  | cons x xs ih =>
    have hx := ha x (by simp)
    have ih' := ih (fun z hz => ha z (by simp [hz]))
    simp [List.takeWhile_cons, List.dropWhile_cons, hx, ih'.1, ih'.2]

theorem removeUnsafe_eq_self {l : List Char}
    (h : ∀ c ∈ l, isUnsafeUrlChar c = false) : removeUnsafe l = l := by
  rw [removeUnsafe, List.filter_eq_self]
  intro a ha
  simp [h a ha]

/-! ## The canonicalizer on well-formed absolute URLs -/

theorem extractScheme_build {s rest0 : List Char} (hs : GoodScheme s) :
    extractScheme [] (s ++ ':' :: rest0) = (s, rest0) := by
  obtain ⟨hsh, hsc, hscolon, _, hsne, hslower⟩ := hs
  rw [extractScheme, splitOnFirst_append _ hscolon]
  cases s with
  | nil => exact absurd rfl hsne
  | cons c0 cs =>
    have h1 : c0.isAlpha = true := hsh c0 rfl
    have h2 : cs.all isSchemeChar = true := by
      rw [List.all_eq_true]; exact fun c hc => hsc c hc
    show (if (c0.isAlpha && cs.all isSchemeChar) = true then (lowerList (c0 :: cs), rest0)
          else (([] : List Char), c0 :: cs ++ ':' :: rest0)) = (c0 :: cs, rest0)
    rw [h1, h2]
    simp only [Bool.and_self, if_true]
    rw [hslower]

theorem netloc_split {n rest : List Char}
    (hn : ∀ c ∈ n, GoodNetlocChar c)
    (hrest : ∀ y, rest.head? = some y → isNetlocDelim y = true) :
    (n ++ rest).takeWhile (fun c => !isNetlocDelim c) = n ∧
    (n ++ rest).dropWhile (fun c => !isNetlocDelim c) = rest :=
  takeWhile_dropWhile_append
    (fun x hx => by simp [(hn x hx).1])
    (fun y hy => by simp [hrest y hy])

theorem urlsplitCore_scheme_netloc {s n rest : List Char}
    (hs : GoodScheme s)
    (hn : ∀ c ∈ n, GoodNetlocChar c)
    (hrest : ∀ y, rest.head? = some y → isNetlocDelim y = true)
    (hsafe : ∀ c ∈ s ++ ':' :: '/' :: '/' :: (n ++ rest), isUnsafeUrlChar c = false) :
    urlsplitCore [] (s ++ ':' :: '/' :: '/' :: (n ++ rest)) =
      (let fs := match splitOnFirst '#' rest with
        | some (a, b) => (a, b)
        | none => (rest, [])
       let pq := match splitOnFirst '?' fs.1 with
        | some (a, b) => (a, b)
        | none => (fs.1, [])
       some ⟨s, n, pq.1, pq.2, fs.2⟩) := by
  have hnb1 : '[' ∉ n := fun h => (hn _ h).2.2.1 rfl
  have hnb2 : ']' ∉ n := fun h => (hn _ h).2.2.2 rfl
  have hns := netloc_split hn hrest
  rw [urlsplitCore, removeUnsafe_eq_self hsafe, extractScheme_build hs]
  simp only [List.take_succ_cons, List.take_zero, List.drop_succ_cons,
    List.drop_zero, if_pos, hns.1, hns.2]
  rw [if_neg (by simp [hnb1, hnb2])]

theorem head_delim_of_path {p X : List Char}
    (hph : p = [] ∨ p.head? = some '/')
    (hX : ∀ y, X.head? = some y → isNetlocDelim y = true) :
    ∀ y, (p ++ X).head? = some y → isNetlocDelim y = true := by
  intro y hy
  rcases hph with rfl | hphead
  · rw [List.nil_append] at hy; exact hX y hy
  · cases p with
    | nil => rw [List.nil_append] at hy; exact hX y hy
    | cons c0 cs =>
      simp only [List.head?_cons, Option.some_inj] at hphead
      rw [List.cons_append, List.head?_cons, Option.some_inj] at hy
      subst hphead; subst hy; decide

theorem urlsplitCore_build {s n p q f : List Char}
    (hs : GoodScheme s)
    (hn : ∀ c ∈ n, GoodNetlocChar c)
    (hp : ∀ c ∈ p, GoodPathChar c)
    (hph : p = [] ∨ p.head? = some '/')
    (hq : ∀ c ∈ q, GoodQueryChar c)
    (hf : ∀ c ∈ f, isUnsafeUrlChar c = false) :
    urlsplitCore [] (mkUrlChars s n p q f) = some ⟨s, n, p, q, f⟩ := by
  have hsafe : ∀ c ∈ mkUrlChars s n p q f, isUnsafeUrlChar c = false := by
    intro c hc
    rw [mkUrlChars] at hc
    simp only [List.mem_append, List.mem_cons] at hc
    rcases hc with (hcs | rfl | rfl | rfl | hcb)
    · exact hs.2.2.2.1 c hcs
    · decide
    · decide
    · decide
    · rcases hcb with ((hcn | hcp) | hcq) | hcf
      · exact (hn c hcn).2.1
      · exact (hp c hcp).2.2.2
      · by_cases hqe : q = [] <;> simp [hqe] at hcq
        rcases hcq with rfl | hcq
        · decide
        · exact (hq c hcq).2
      · by_cases hfe : f = [] <;> simp [hfe] at hcf
        rcases hcf with rfl | hcf
        · decide
        · exact hf c hcf
  have hhash_p : '#' ∉ p := fun h => (hp _ h).2.1 rfl
  have hquest_p : '?' ∉ p := fun h => (hp _ h).1 rfl
  have hhash_q : '#' ∉ q := fun h => (hq _ h).1 rfl
  have hrp : ∀ y, p.head? = some y → isNetlocDelim y = true := by
    intro y hy
    rcases hph with rfl | hh
    · simp at hy
    · rw [hy, Option.some_inj] at hh
      rw [hh]; decide
  by_cases hqe : q = [] <;> by_cases hfe : f = []
  · -- q = [], f = []
    subst hqe; subst hfe
    have hshape : mkUrlChars s n p [] [] = s ++ ':' :: '/' :: '/' :: (n ++ p) := by
      simp [mkUrlChars]
    rw [hshape] at hsafe ⊢
    rw [urlsplitCore_scheme_netloc hs hn hrp hsafe]
    simp only [splitOnFirst_of_not_mem hhash_p, splitOnFirst_of_not_mem hquest_p]
  · -- q = [], f ≠ []
    subst hqe
    have hshape : mkUrlChars s n p [] f = s ++ ':' :: '/' :: '/' :: (n ++ (p ++ '#' :: f)) := by
      simp [mkUrlChars, if_neg hfe]
    have hrest : ∀ y, (p ++ '#' :: f).head? = some y → isNetlocDelim y = true :=
      head_delim_of_path hph (by intro y hy; rw [List.head?_cons, Option.some_inj] at hy; rw [← hy]; decide)
    rw [hshape] at hsafe ⊢
    rw [urlsplitCore_scheme_netloc hs hn hrest hsafe]
    simp only [splitOnFirst_append _ hhash_p, splitOnFirst_of_not_mem hquest_p]
  · -- q ≠ [], f = []
    subst hfe
    have hshape : mkUrlChars s n p q [] = s ++ ':' :: '/' :: '/' :: (n ++ (p ++ '?' :: q)) := by
      simp [mkUrlChars, if_neg hqe]
    have hrest : ∀ y, (p ++ '?' :: q).head? = some y → isNetlocDelim y = true :=
      head_delim_of_path hph (by intro y hy; rw [List.head?_cons, Option.some_inj] at hy; rw [← hy]; decide)
    have hhash : '#' ∉ p ++ '?' :: q := by
      simp only [List.mem_append, List.mem_cons, not_or]
      exact ⟨hhash_p, by decide, hhash_q⟩
    rw [hshape] at hsafe ⊢
    rw [urlsplitCore_scheme_netloc hs hn hrest hsafe]
    simp only [splitOnFirst_of_not_mem hhash, splitOnFirst_append _ hquest_p]
  · -- q ≠ [], f ≠ []
    have hshape : mkUrlChars s n p q f =
        s ++ ':' :: '/' :: '/' :: (n ++ (p ++ '?' :: (q ++ '#' :: f))) := by
      simp [mkUrlChars, if_neg hqe, if_neg hfe]
    have hrest : ∀ y, (p ++ '?' :: (q ++ '#' :: f)).head? = some y → isNetlocDelim y = true :=
      head_delim_of_path hph (by intro y hy; rw [List.head?_cons, Option.some_inj] at hy; rw [← hy]; decide)
    have hhash : '#' ∉ p ++ '?' :: q := by
      simp only [List.mem_append, List.mem_cons, not_or]
      exact ⟨hhash_p, by decide, hhash_q⟩
    rw [hshape] at hsafe ⊢
    rw [urlsplitCore_scheme_netloc hs hn hrest hsafe]
    rw [show p ++ '?' :: (q ++ '#' :: f) = (p ++ '?' :: q) ++ '#' :: f by simp]
    simp only [splitOnFirst_append _ hhash, splitOnFirst_append _ hquest_p]

theorem urlparse_mkUrl {s n p q f : String} (h : GoodAbsUrl s n p q f) :
    urlparse (mkUrl s n p q f) = some ⟨s, n, p, "", q, f⟩ := by
  obtain ⟨hs, hn, hp, hph, hq, hf⟩ := h
  have hgs : GoodScheme s.data := by
    rcases hs with rfl | rfl
    · exact ⟨fun y hy => by
        rw [show ("http".data).head? = some 'h' from rfl, Option.some_inj] at hy
        rw [← hy]; decide,
        by decide, by decide, by decide, by decide, by decide⟩
    · exact ⟨fun y hy => by
        rw [show ("https".data).head? = some 'h' from rfl, Option.some_inj] at hy
        rw [← hy]; decide,
        by decide, by decide, by decide, by decide, by decide⟩
  have hph' : p.data = [] ∨ p.data.head? = some '/' := by
    rcases hph with hpe | hh
    · exact Or.inl (by rw [hpe])
    · exact Or.inr hh
  have hcore := urlsplitCore_build hgs hn hp hph' hq hf
  have hsemi : ';' ∉ p.data := fun hmem => (hp _ hmem).2.2.1 rfl
  rw [urlparse, urlsplit]
  rw [show (mkUrl s n p q f).data = mkUrlChars s.data n.data p.data q.data f.data from rfl]
  rw [show ("".data : List Char) = [] from rfl]
  rw [hcore]
  simp only [Option.map_some']
  rw [if_neg (fun hcontra => hsemi hcontra.2)]

theorem normalize_url_mkUrl (b : Option String) (cur : String) {s n p q f : String}
    (h : GoodAbsUrl s n p q f) :
    normalize_url b cur (mkUrl s n p q f) = .ok (canonicalForm s n p q) := by
  have hparse := urlparse_mkUrl h
  obtain ⟨hs, -, -, -, -, -⟩ := h
  rcases hs with rfl | rfl
  · have hT : pyStartsWith (mkUrl "http" n p q f) "http://" = true := by
      simp [pyStartsWith, mkUrl, mkUrlChars, List.isPrefixOf]
    have hJ : pyStartsWith (mkUrl "http" n p q f) "javascript:" = false := by
      simp [pyStartsWith, mkUrl, mkUrlChars, List.isPrefixOf]
    have hM : pyStartsWith (mkUrl "http" n p q f) "mailto:" = false := by
      simp [pyStartsWith, mkUrl, mkUrlChars, List.isPrefixOf]
    have hTl : pyStartsWith (mkUrl "http" n p q f) "tel:" = false := by
      simp [pyStartsWith, mkUrl, mkUrlChars, List.isPrefixOf]
    have hHs : pyStartsWith (mkUrl "http" n p q f) "#" = false := by
      simp [pyStartsWith, mkUrl, mkUrlChars, List.isPrefixOf]
    have hD : pyStartsWith (mkUrl "http" n p q f) "data:" = false := by
      simp [pyStartsWith, mkUrl, mkUrlChars, List.isPrefixOf]
    have hne : mkUrl "http" n p q f ≠ "" := by
      simp [String.ext_iff, mkUrl, mkUrlChars]
    rw [normalize_url]
    rw [if_neg (by simp [hne, hJ, hM, hTl, hHs, hD])]
    cases b with
    | none =>
      rcases eq_or_ne q "" with rfl | hqq
      · simp [hT, hparse, canonicalForm, String.ext_iff, String.data_append,
          List.append_assoc]
      · simp [hT, hparse, canonicalForm, hqq, String.ext_iff, String.data_append,
          List.append_assoc]
    | some bb =>
      rcases eq_or_ne q "" with rfl | hqq
      · simp [hT, hparse, canonicalForm, String.ext_iff, String.data_append,
          List.append_assoc]
      · simp [hT, hparse, canonicalForm, hqq, String.ext_iff, String.data_append,
          List.append_assoc]
  · have hT : pyStartsWith (mkUrl "https" n p q f) "https://" = true := by
      simp [pyStartsWith, mkUrl, mkUrlChars, List.isPrefixOf]
    have hJ : pyStartsWith (mkUrl "https" n p q f) "javascript:" = false := by
      simp [pyStartsWith, mkUrl, mkUrlChars, List.isPrefixOf]
    have hM : pyStartsWith (mkUrl "https" n p q f) "mailto:" = false := by
      simp [pyStartsWith, mkUrl, mkUrlChars, List.isPrefixOf]
    have hTl : pyStartsWith (mkUrl "https" n p q f) "tel:" = false := by
      simp [pyStartsWith, mkUrl, mkUrlChars, List.isPrefixOf]
    have hHs : pyStartsWith (mkUrl "https" n p q f) "#" = false := by
      simp [pyStartsWith, mkUrl, mkUrlChars, List.isPrefixOf]
    have hD : pyStartsWith (mkUrl "https" n p q f) "data:" = false := by
      simp [pyStartsWith, mkUrl, mkUrlChars, List.isPrefixOf]
    have hne : mkUrl "https" n p q f ≠ "" := by
      simp [String.ext_iff, mkUrl, mkUrlChars]
    rw [normalize_url]
    rw [if_neg (by simp [hne, hJ, hM, hTl, hHs, hD])]
    cases b with
    | none =>
      rcases eq_or_ne q "" with rfl | hqq
      · simp [hT, hparse, canonicalForm, String.ext_iff, String.data_append,
          List.append_assoc]
      · simp [hT, hparse, canonicalForm, hqq, String.ext_iff, String.data_append,
          List.append_assoc]
    | some bb =>
      rcases eq_or_ne q "" with rfl | hqq
      · simp [hT, hparse, canonicalForm, String.ext_iff, String.data_append,
          List.append_assoc]
      · simp [hT, hparse, canonicalForm, hqq, String.ext_iff, String.data_append,
          List.append_assoc]

theorem canonicalForm_eq_mkUrl {s n p q : String} :
    canonicalForm s n p q = mkUrl s n p q "" := by
  rcases eq_or_ne q "" with rfl | hqq
  · simp [canonicalForm, mkUrl, mkUrlChars, String.ext_iff, String.data_append,
      List.append_assoc]
  · have hd : q.data ≠ [] := by simpa [String.ext_iff] using hqq
    simp [canonicalForm, mkUrl, mkUrlChars, String.ext_iff, String.data_append,
      List.append_assoc, hqq, hd]

theorem normalize_url_canonicalForm (b : Option String) (cur : String)
    {s n p q f : String} (h : GoodAbsUrl s n p q f) :
    normalize_url b cur (canonicalForm s n p q) = .ok (canonicalForm s n p q) := by
  obtain ⟨hs, hn, hp, hph, hq, -⟩ := h
  have h' : GoodAbsUrl s n p q "" :=
    ⟨hs, hn, hp, hph, hq, by intro c hc; simp at hc⟩
  conv_lhs => rw [canonicalForm_eq_mkUrl]
  exact normalize_url_mkUrl b cur h'

/-! ## Claim C4 -/

/-- C4 counterexample: the raw URL `http://EXAMPLE.com/Path` is accepted by
the canonicalizer and its canonical form still contains the upper-case host
`EXAMPLE.com` — the host is not lower-cased, contradicting the claim that
scheme and host are both lower-cased. -/
theorem C4_host_not_lowercased :
    normalize_url none "http://c.com/" "http://EXAMPLE.com/Path" =
      .ok "http://EXAMPLE.com/Path" ∧
    ("http://EXAMPLE.com/Path" : String) ≠ "http://example.com/Path" := by
  constructor
  · decide
  · decide

/-- C4 (amended): for every raw URL that is a well-formed absolute http(s)
URL built from components `s://n p [?q] [#f]`, the canonicalizer accepts it
and produces exactly `s://n p [?q]` — the fragment is stripped, the query is
kept verbatim, and the case of host, path and query is preserved (the
scheme is the literal lower-case `http`/`https` that the absolute branch
requires); the host is *not* lower-cased. -/
theorem C4_canonical_components (b : Option String) (cur : String)
    {s n p q f : String} (h : GoodAbsUrl s n p q f) :
    normalize_url b cur (mkUrl s n p q f) = .ok (canonicalForm s n p q) :=
  normalize_url_mkUrl b cur h

/-- C4 witness: the amended theorem applied to
`http://EXAMPLE.com/CasePath?Query=Kept#frag`. -/
theorem C4_canonical_components_witness :
    GoodAbsUrl "http" "EXAMPLE.com" "/CasePath" "Query=Kept" "frag" ∧
    normalize_url none "http://c.com/" (mkUrl "http" "EXAMPLE.com" "/CasePath" "Query=Kept" "frag") =
      .ok (canonicalForm "http" "EXAMPLE.com" "/CasePath" "Query=Kept") :=
  ⟨by decide, C4_canonical_components none "http://c.com/" (by decide)⟩

/-! ## Claim C5 -/

/-- C5 counterexample: the raw URL `MAILTO:foo` is accepted by the
canonicalizer (its upper-case spelling evades the case-sensitive
`mailto:` prefix check, and `urljoin` returns it unchanged because its
scheme differs from the base's), canonicalizing to `mailto://foo`; that
canonical form is then rejected by the same prefix check, so
`canon(canon(u))` is not `canon(u)` — idempotence fails. -/
theorem C5_idempotence_counterexample :
    normalize_url none "http://c.com/page" "MAILTO:foo" = .ok "mailto://foo" ∧
    normalize_url none "http://c.com/page" "mailto://foo" = .dropped := by
  constructor
  · decide
  · decide

/-- C5 (amended): canonicalization is idempotent on every accepted URL whose
canonical form is an absolute http(s) URL — in particular, for every
well-formed absolute http(s) input the canonical form re-canonicalizes to
itself — and `http://a.com/x#frag` and `http://a.com/x` canonicalize
identically; but idempotence does not extend to accepted URLs with
non-http(s) schemes (see the counterexample). -/
theorem C5_canon_idempotent_abs (b : Option String) (cur : String)
    {s n p q f : String} (h : GoodAbsUrl s n p q f) :
    (normalize_url b cur (mkUrl s n p q f) = .ok (canonicalForm s n p q) ∧
     normalize_url b cur (canonicalForm s n p q) = .ok (canonicalForm s n p q)) ∧
    normalize_url none "http://c.com/" "http://a.com/x#frag" =
      normalize_url none "http://c.com/" "http://a.com/x" :=
  ⟨⟨normalize_url_mkUrl b cur h, normalize_url_canonicalForm b cur h⟩, by decide⟩

/-- C5 witness: idempotence at `https://a.com/x?y=1#frag`. -/
theorem C5_canon_idempotent_abs_witness :
    GoodAbsUrl "https" "a.com" "/x" "y=1" "frag" ∧
    (normalize_url none "http://c.com/" (mkUrl "https" "a.com" "/x" "y=1" "frag") =
       .ok (canonicalForm "https" "a.com" "/x" "y=1") ∧
     normalize_url none "http://c.com/" (canonicalForm "https" "a.com" "/x" "y=1") =
       .ok (canonicalForm "https" "a.com" "/x" "y=1")) :=
  ⟨by decide, (C5_canon_idempotent_abs none "http://c.com/" (by decide)).1⟩

/-! ## The crawl-loop invariant -/

theorem pairwise_map_const_depth (ls : List String) (d : Nat) :
    List.Pairwise depthLe (ls.map (fun l => (l, d))) := by
  induction ls with
  | nil => simp
  | cons a t ih =>
    simp only [List.map_cons, List.pairwise_cons]
    exact ⟨fun b hb => by
      rcases List.mem_map.mp hb with ⟨x, -, rfl⟩
      exact le_refl d, ih⟩

theorem crawlStep_inv {cfg : CrawlCfg} {st st' : CrawlState}
    (hinv : CrawlInv st) (hstep : crawlStep cfg st = some (some st')) :
    CrawlInv st' := by
  obtain ⟨hqS, hqP, hlS, hlQ, hrN, hrS⟩ := hinv
  obtain ⟨q, seen, results, log⟩ := st
  simp only at hqS hqP hlS hlQ hrN hrS hstep
  rcases q with _ | ⟨⟨url, depth⟩, rest⟩
  · rw [crawlStep] at hstep
    simp at hstep
  · rw [crawlStep] at hstep
    simp only at hstep
    rw [List.pairwise_cons] at hqS
    have hlogS' : (log ++ [(url, depth)]).Pairwise depthLe := by
      rw [List.pairwise_append]
      refine ⟨hlS, by simp, fun a ha b hb => ?_⟩
      rw [List.mem_singleton] at hb
      subst hb
      exact hlQ a ha (url, depth) (List.mem_cons_self _ _)
    have hlogQrest : ∀ a ∈ log ++ [(url, depth)], ∀ b ∈ rest, depthLe a b := by
      intro a ha b hb
      rcases List.mem_append.mp ha with ha | ha
      · exact hlQ a ha b (List.mem_cons_of_mem _ hb)
      · rw [List.mem_singleton] at ha
        subst ha
        exact hqS.1 b hb
    by_cases hc : url ∈ seen ∨ depth > cfg.maxDepth
    · rw [if_pos hc] at hstep
      simp only [Option.some.injEq] at hstep
      subst hstep
      refine ⟨hqS.2, ?_, hlogS', hlogQrest, hrN, hrS⟩
      · exact fun a ha b hb =>
          hqP a (List.mem_cons_of_mem _ ha) b (List.mem_cons_of_mem _ hb)
    · rw [if_neg hc] at hstep
      push_neg at hc
      obtain ⟨hseen, hdep⟩ := hc
      have hresN' : (results ++ [url]).Nodup := by
        rw [List.nodup_append]
        refine ⟨hrN, List.nodup_singleton _, fun a ha hb => ?_⟩
        rw [List.mem_singleton] at hb
        subst hb
        exact hseen (hrS a ha)
      have hresS' : ∀ u ∈ results ++ [url], u ∈ url :: seen := by
        intro u hu
        rcases List.mem_append.mp hu with hu | hu
        · exact List.mem_cons_of_mem _ (hrS u hu)
        · rw [List.mem_singleton] at hu
          subst hu
          exact List.mem_cons_self _ _
      by_cases hd : depth < cfg.maxDepth
      · rw [if_pos hd] at hstep
        rcases hlinks : admitLinks cfg (url :: seen) (cfg.pages url) with _ | ls <;>
          rw [hlinks] at hstep
        · simp at hstep
        · simp only [Option.some.injEq] at hstep
          subst hstep
          have hmapdep : ∀ b ∈ ls.map (fun l => (l, depth + 1)), b.2 = depth + 1 := by
            intro b hb
            rcases List.mem_map.mp hb with ⟨x, -, rfl⟩
            rfl
          refine ⟨?_, ?_, hlogS', ?_, hresN', hresS'⟩
          · rw [List.pairwise_append]
            refine ⟨hqS.2, pairwise_map_const_depth ls (depth + 1), fun a ha b hb => ?_⟩
            have hb2 := hmapdep b hb
            have := hqP a (List.mem_cons_of_mem _ ha) (url, depth) (List.mem_cons_self _ _)
            simp only [depthLe, hb2]
            exact this
          · intro a ha b hb
            rcases List.mem_append.mp ha with ha | ha <;>
              rcases List.mem_append.mp hb with hb | hb
            · exact hqP a (List.mem_cons_of_mem _ ha) b (List.mem_cons_of_mem _ hb)
            · have hb2 := hmapdep b hb
              have := hqP a (List.mem_cons_of_mem _ ha) (url, depth) (List.mem_cons_self _ _)
              omega
            · have ha2 := hmapdep a ha
              have := hqS.1 b hb
              simp only [depthLe] at this
              omega
            · have ha2 := hmapdep a ha
              have hb2 := hmapdep b hb
              omega
          · intro a ha b hb
            rcases List.mem_append.mp hb with hb | hb
            · exact hlogQrest a ha b hb
            · have hb2 := hmapdep b hb
              rcases List.mem_append.mp ha with ha | ha
              · have := hlQ a ha (url, depth) (List.mem_cons_self _ _)
                simp only [depthLe] at this ⊢
                omega
              · rw [List.mem_singleton] at ha
                subst ha
                simp only [depthLe, hb2]
                omega
      · rw [if_neg hd] at hstep
        simp only [Option.some.injEq] at hstep
        subst hstep
        refine ⟨hqS.2, ?_, hlogS', hlogQrest, hresN', hresS'⟩
        · exact fun a ha b hb =>
            hqP a (List.mem_cons_of_mem _ ha) b (List.mem_cons_of_mem _ hb)

theorem crawlRun_inv {cfg : CrawlCfg} {fuel : Nat} {st st' : CrawlState}
    (hinv : CrawlInv st) (hrun : crawlRun cfg fuel st = some st') : CrawlInv st' := by
  induction fuel generalizing st with
  | zero =>
    rw [crawlRun] at hrun
    simp only [Option.some.injEq] at hrun
    subst hrun
    exact hinv
  | succ k ih =>
    rw [crawlRun] at hrun
    rcases hstep : crawlStep cfg st with _ | ⟨_ | st1⟩ <;> rw [hstep] at hrun
    · simp at hrun
    · simp only [Option.some.injEq] at hrun
      subst hrun
      exact hinv
    · exact ih (crawlStep_inv hinv hstep) hrun

theorem crawlInit_inv (start : String) : CrawlInv (crawlInit start) := by
  constructor <;> simp [crawlInit, depthLe]

/-! ## Claim C3 -/

/-- C3: within one crawl, no canonical URL is ever scraped twice — the list
of scraped urls is duplicate-free — and dequeues happen in nondecreasing
depth order: no depth-(d+1) entry is dequeued before every depth-d entry
has been dequeued (breadth-first order under the FIFO queue discipline). -/
theorem C3_bfs_no_revisit (start : String) (maxDepth : Nat)
    (followSubdomains : Bool) (pages : String → List String) (fuel : Nat)
    (st : CrawlState)
    (h : crawl start maxDepth followSubdomains pages fuel = some st) :
    st.results.Nodup ∧ st.log.Pairwise depthLe := by
  rw [crawl] at h
  rcases hp : urlparse start with _ | pr <;> rw [hp] at h
  · simp at h
  · simp only [Option.bind_eq_bind, Option.some_bind] at h
    have hinv := crawlRun_inv (crawlInit_inv start) h
    exact ⟨hinv.resNodup, hinv.logSorted⟩

/-- C3 witness: a depth-1 crawl of the diamond site scrapes each page once,
in nondecreasing depth order. -/
theorem C3_bfs_no_revisit_witness :
    (["http://a.com/", "http://a.com/p1", "http://a.com/p2"] : List String).Nodup ∧
    List.Pairwise depthLe
      [("http://a.com/", 0), ("http://a.com/p1", 1), ("http://a.com/p2", 1)] :=
  C3_bfs_no_revisit "http://a.com/" 1 false pagesDiamond 10
    ⟨[], ["http://a.com/p2", "http://a.com/p1", "http://a.com/"],
     ["http://a.com/", "http://a.com/p1", "http://a.com/p2"],
     [("http://a.com/", 0), ("http://a.com/p1", 1), ("http://a.com/p2", 1)]⟩
    (by decide)

/-! ## Claim C1 -/

/-- C1 counterexample: with subdomain-following enabled, the crawl loop
skips the domain check entirely, so a link to the unrelated host `x.com` is
crawled — refuting the claim that an `x.com` link is excluded from traversal
regardless of the subdomain-following setting. -/
theorem C1_offsite_followed_counterexample :
    (crawl "http://a.com/" 1 true pagesOffsite 20).map CrawlState.results =
      some ["http://a.com/", "http://x.com/", "http://b.a.com/"] := by
  decide

/-- C1 (amended): with `follow_subdomains=false` every admitted link's host
equals the seed's host exactly, so both `b.a.com` and `x.com` links are
excluded; with `follow_subdomains=true` the domain filter is disabled
entirely, and every unseen link with an http-prefixed scheme is admitted —
`b.a.com` but also `x.com`. -/
theorem contains_eq_false_iff (l : List String) (a : String) :
    (l.contains a = false) ↔ a ∉ l := by
  rw [← Bool.not_eq_true, not_iff_not]
  exact List.elem_iff

theorem C1_domain_filter (cfg : CrawlCfg) (seen ls out : List String)
    (h : admitLinks cfg seen ls = some out) :
    (∀ l ∈ out, l ∈ ls ∧ l ∉ seen ∧ ∃ pr, urlparse l = some pr ∧
        pyStartsWith pr.scheme "http" = true ∧
        (cfg.followSubdomains = false → pr.netloc = cfg.baseDomain)) ∧
    (∀ l ∈ ls, cfg.followSubdomains = true → l ∉ seen →
        (∃ pr, urlparse l = some pr ∧ pyStartsWith pr.scheme "http" = true) →
        l ∈ out) := by
  induction ls generalizing out with
  | nil =>
    rw [admitLinks] at h
    simp only [Option.some.injEq] at h
    subst h
    exact ⟨by simp, by simp⟩
  | cons a t ih =>
    rw [admitLinks] at h
    rcases hpa : urlparse a with _ | pr <;> rw [hpa] at h
    · simp at h
    · simp only [Option.bind_eq_bind, Option.some_bind] at h
      rcases hrec : admitLinks cfg seen t with _ | more <;> rw [hrec] at h
      · simp at h
      · simp only [Option.some_bind, Option.some.injEq] at h
        obtain ⟨ih1, ih2⟩ := ih more hrec
        subst h
        by_cases hkeep : (pyStartsWith pr.scheme "http" &&
            (cfg.followSubdomains || pr.netloc == cfg.baseDomain) &&
            !seen.contains a) = true
        · rw [if_pos hkeep]
          simp only [Bool.and_eq_true, Bool.or_eq_true, beq_iff_eq,
            Bool.not_eq_true'] at hkeep
          obtain ⟨⟨hsch, hdom⟩, hnotseen0⟩ := hkeep
          have hnotseen := (contains_eq_false_iff seen a).mp hnotseen0
          constructor
          · intro l hl
            rcases List.mem_cons.mp hl with rfl | hl
            · refine ⟨List.mem_cons_self _ _, hnotseen, pr, hpa, hsch, fun hfs => ?_⟩
              rcases hdom with hdom | hdom
              · rw [hfs] at hdom; exact absurd hdom (by simp)
              · exact hdom
            · obtain ⟨hlt, hls, hpr⟩ := ih1 l hl
              exact ⟨List.mem_cons_of_mem _ hlt, hls, hpr⟩
          · intro l hl hfs hls hpr
            rcases List.mem_cons.mp hl with rfl | hl
            · exact List.mem_cons_self _ _
            · exact List.mem_cons_of_mem _ (ih2 l hl hfs hls hpr)
        · rw [if_neg hkeep]
          constructor
          · intro l hl
            obtain ⟨hlt, hls, hpr⟩ := ih1 l hl
            exact ⟨List.mem_cons_of_mem _ hlt, hls, hpr⟩
          · intro l hl hfs hls hpr
            rcases List.mem_cons.mp hl with rfl | hl
            · exfalso
              apply hkeep
              obtain ⟨pr', hpr', hsch'⟩ := hpr
              rw [hpa, Option.some_inj] at hpr'
              subst hpr'
              simp only [Bool.and_eq_true, Bool.or_eq_true, beq_iff_eq,
                Bool.not_eq_true']
              exact ⟨⟨hsch', Or.inl hfs⟩, (contains_eq_false_iff seen l).mpr hls⟩
            · exact ih2 l hl hfs hls hpr

/-- C1 witness: with subdomain-following disabled and seed host `a.com`,
only the exact-host link passes the filter; `b.a.com` and `x.com` are
dropped. -/
theorem C1_domain_filter_witness :
    (∀ l ∈ (["http://a.com/p1"] : List String),
        l ∈ (["http://a.com/p1", "http://b.a.com/", "http://x.com/"] : List String) ∧
        l ∉ ([] : List String) ∧ ∃ pr, urlparse l = some pr ∧
          pyStartsWith pr.scheme "http" = true ∧
          ((false : Bool) = false → pr.netloc = "a.com")) ∧
    (∀ l ∈ (["http://a.com/p1", "http://b.a.com/", "http://x.com/"] : List String),
        (false : Bool) = true → l ∉ ([] : List String) →
        (∃ pr, urlparse l = some pr ∧ pyStartsWith pr.scheme "http" = true) →
        l ∈ (["http://a.com/p1"] : List String)) :=
  C1_domain_filter ⟨pagesOffsite, 1, false, "a.com"⟩ []
    ["http://a.com/p1", "http://b.a.com/", "http://x.com/"]
    ["http://a.com/p1"] (by decide)

/-! ## Claim C2 -/

/-- C2 counterexample: after dequeuing the seed and the two depth-1 pages of
the diamond site, the frontier holds the depth-2 url `http://a.com/p3`
twice — `seen` is not updated at enqueue time, so the same URL discovered
from two different pages at the same depth is queued twice, refuting
visited-on-enqueue and frontier uniqueness. -/
theorem C2_duplicate_in_frontier :
    (crawlRun ⟨pagesDiamond, 2, false, "a.com"⟩ 3
        (crawlInit "http://a.com/")).map CrawlState.queue =
      some [("http://a.com/p3", 2), ("http://a.com/p3", 2)] := by
  decide

/-- C2 (amended): a URL is marked visited at dequeue time, not at enqueue
time: when the frontier head `(u, d)` is dequeued and processed, `u` is
added to the visited set and scraped; when it is skipped (already visited
or beyond the depth limit), nothing is added; offering links to the
frontier never modifies the visited set, so duplicates can enter the queue
and are instead skipped at dequeue. -/
theorem C2_visited_on_dequeue (cfg : CrawlCfg) (st st' : CrawlState)
    (u : String) (d : Nat) (rest : List (String × Nat))
    (hq : st.queue = (u, d) :: rest)
    (hstep : crawlStep cfg st = some (some st')) :
    ((u ∈ st.seen ∨ d > cfg.maxDepth) → st'.seen = st.seen ∧ st'.results = st.results) ∧
    (u ∉ st.seen → d ≤ cfg.maxDepth → st'.seen = u :: st.seen ∧
       st'.results = st.results ++ [u]) := by
  obtain ⟨q, seen, results, log⟩ := st
  simp only at hq hstep ⊢
  subst hq
  rw [crawlStep] at hstep
  simp only at hstep
  by_cases hc : u ∈ seen ∨ d > cfg.maxDepth
  · rw [if_pos hc] at hstep
    simp only [Option.some.injEq] at hstep
    subst hstep
    refine ⟨fun _ => ⟨rfl, rfl⟩, fun hnot hle => ?_⟩
    rcases hc with hc | hc
    · exact absurd hc hnot
    · omega
  · rw [if_neg hc] at hstep
    push_neg at hc
    refine ⟨fun hcon => ?_, fun _ _ => ?_⟩
    · rcases hcon with hcon | hcon
      · exact absurd hcon hc.1
      · exact absurd hcon (not_lt.mpr hc.2)
    · by_cases hd : d < cfg.maxDepth
      · rw [if_pos hd] at hstep
        rcases hlinks : admitLinks cfg (u :: seen) (cfg.pages u) with _ | ls <;>
          rw [hlinks] at hstep
        · simp at hstep
        · simp only [Option.some.injEq] at hstep
          subst hstep
          exact ⟨rfl, rfl⟩
      · rw [if_neg hd] at hstep
        simp only [Option.some.injEq] at hstep
        subst hstep
        exact ⟨rfl, rfl⟩

/-- C2 witness: the first step of the diamond crawl dequeues the seed,
marks it visited and scrapes it. -/
theorem C2_visited_on_dequeue_witness :
    (("http://a.com/" ∈ ([] : List String) ∨ 0 > 2) →
       (["http://a.com/"] : List String) = [] ∧
       (["http://a.com/"] : List String) = []) ∧
    ("http://a.com/" ∉ ([] : List String) → 0 ≤ 2 →
       (["http://a.com/"] : List String) = "http://a.com/" :: [] ∧
       (["http://a.com/"] : List String) = [] ++ ["http://a.com/"]) :=
  C2_visited_on_dequeue ⟨pagesDiamond, 2, false, "a.com"⟩
    ⟨[("http://a.com/", 0)], [], [], []⟩
    ⟨[("http://a.com/p1", 1), ("http://a.com/p2", 1)], ["http://a.com/"],
     ["http://a.com/"], [("http://a.com/", 0)]⟩
    "http://a.com/" 0 [] (by decide) (by decide)

/-! ## Dict lemmas -/

theorem dictGet_dictInsert {α : Type} (d : List (String × α)) (k k' : String) (v : α) :
    dictGet (dictInsert d k v) k' = if k = k' then some v else dictGet d k' := by
  induction d with
  | nil =>
    by_cases h1 : k = k' <;> simp [dictInsert, dictGet, h1]
  | cons kv rest ih =>
    obtain ⟨k0, v0⟩ := kv
    by_cases h0 : k0 = k
    · subst h0
      by_cases h1 : k0 = k' <;> simp [dictInsert, dictGet, h1]
    · by_cases h1 : k0 = k'
      · subst h1
        simp [dictInsert, dictGet, h0, Ne.symm h0]
      · simp [dictInsert, dictGet, h0, h1, ih]

theorem dictGet_insert_of_absent_key {α : Type} {d : List (String × α)}
    {k key : String} {v : α} (v' : α) (hv : dictGet d k = some v)
    (hkey : dictGet d key = none) :
    dictGet (dictInsert d key v') k = some v := by
  rw [dictGet_dictInsert]
  rw [if_neg (fun h => by rw [h, hv] at hkey; exact Option.noConfusion hkey)]
  exact hv

theorem dictGet_metaDefaultInsert {d : List (String × MVal)} {k : String}
    {v : MVal} (key : String) (dv : MVal) (hv : dictGet d k = some v) :
    dictGet (metaDefaultInsert key dv d) k = some v := by
  rw [metaDefaultInsert]
  split_ifs with h
  · exact dictGet_insert_of_absent_key _ hv (Option.isNone_iff_eq_none.mp h)
  · exact hv

/-! ## Claim C6 -/

/-- C6 counterexample: the title-less single-section document renders to
`"# **Hi**"` — the final `strip()` removes the trailing newline, so the
output is not the claimed `"# **Hi**\n"`. -/
theorem C6_no_trailing_newline : json_to_markdown docHi ≠ "# **Hi**\n" := by
  decide

/-- C6 (amended): rendering the title-less Document with the single Section
`{headline: "Hi", description: "", content: "", links: [], subsections: []}`
and no reviews or metadata yields exactly `"# **Hi**"`: the heading line
with no trailing newline, because the final output is stripped of trailing
whitespace (the strip removes the blank line the renderer appends after the
heading). -/
theorem C6_render_hi : json_to_markdown docHi = "# **Hi**" := by
  decide

/-! ## Claim C7 -/

/-- C7 counterexample: scraping with the invalid output format name
`"bogus"` raises no error and produces an empty formats mapping — the
invalid name is silently ignored, not rejected as a structured error. -/
theorem C7_invalid_format_ignored :
    scrape pgDemo ["bogus"] = ⟨[], none⟩ := by
  decide

theorem scrapeFormatStep_unknown (pg : PageContent) {fmt : String}
    (hf : fmt ∉ recognizedFormats) (d : List (String × FormatValue))
    (f : String) (hd : dictGet d fmt = none) :
    dictGet (scrapeFormatStep pg d f) fmt = none := by
  rw [scrapeFormatStep]
  split_ifs <;>
    first
      | exact hd
      | (rw [dictGet_dictInsert, if_neg (fun hk => hf (by rw [← hk]; decide))]
         exact hd)

/-- C7 (amended): an output format name outside the recognized set is
silently skipped: the per-page result contains no entry for it, and the
format loop raises no error — the scrape (and hence the crawl) proceeds
with the recognized formats only. -/
theorem C7_unknown_format_skipped (pg : PageContent)
    (output_formats : List String) (fmt : String)
    (hf : fmt ∉ recognizedFormats) :
    dictGet (scrapeFormats pg output_formats) fmt = none ∧
    (scrape pg output_formats).error = none := by
  constructor
  · rw [scrapeFormats]
    have hgo : ∀ (fmts : List String) (d : List (String × FormatValue)),
        dictGet d fmt = none →
        dictGet (fmts.foldl (scrapeFormatStep pg) d) fmt = none := by
      intro fmts
      induction fmts with
      | nil => exact fun d hd => hd
      | cons f rest ih =>
        exact fun d hd => ih _ (scrapeFormatStep_unknown pg hf d f hd)
    exact hgo output_formats [] rfl
  · rfl

/-- C7 witness: the unknown name `"bogus"` next to a recognized one. -/
theorem C7_unknown_format_skipped_witness :
    ("bogus" : String) ∉ recognizedFormats ∧
    (dictGet (scrapeFormats pgDemo ["bogus", "markdown"]) "bogus" = none ∧
     (scrape pgDemo ["bogus", "markdown"]).error = none) :=
  ⟨by decide, C7_unknown_format_skipped pgDemo ["bogus", "markdown"] "bogus" (by decide)⟩

/-! ## Claim C8 -/

theorem metaPostProcess_preserves_present {pg : PageMeta}
    (hfav : pg.faviconHref = none) (htit : pg.titleText = none)
    {d : List (String × MVal)} {k : String} {v : MVal}
    (hv : dictGet d k = some v) :
    dictGet (metaPostProcess pg d) k = some v := by
  rw [metaPostProcess, hfav, htit]
  rcases hos : dictGet d "og:site_name" with _ | vs <;>
    rcases htl : dictGet d "title" with _ | vt <;>
    simp only
  · exact dictGet_metaDefaultInsert _ _ (dictGet_metaDefaultInsert _ _ hv)
  · exact dictGet_metaDefaultInsert _ _ (dictGet_metaDefaultInsert _ _
      (dictGet_insert_of_absent_key _ hv hos))
  · exact dictGet_metaDefaultInsert _ _ (dictGet_metaDefaultInsert _ _ hv)
  · exact dictGet_metaDefaultInsert _ _ (dictGet_metaDefaultInsert _ _ hv)

/-- C8: a page whose `<meta property="og:image">` tag appears twice (and
whose favicon and title are absent, so no post-processing writes collide)
yields an `og:image` entry that is the 2-element list of the two contents in
document order; while a repeated meta key outside the multi-valued
allow-list is overwritten, the last occurrence winning. -/
theorem C8_meta_accumulation (pg : PageMeta) (c1 c2 : String)
    (hm : pg.metas = [⟨none, some "og:image", some c1⟩,
                      ⟨none, some "og:image", some c2⟩])
    (hfav : pg.faviconHref = none) (htit : pg.titleText = none)
    (h1 : c1 ≠ "") (h2 : c2 ≠ "") :
    dictGet (extract_meta_tags pg) "og:image" = some (.l [c1, c2]) ∧
    (∀ (pg2 : PageMeta) (k v1 v2 : String),
      pg2.metas = [⟨some k, none, some v1⟩, ⟨some k, none, some v2⟩] →
      k ∉ multiValuedKeys → k ≠ "" → v1 ≠ "" → v2 ≠ "" →
      pg2.faviconHref = none → pg2.titleText = none →
      dictGet (extract_meta_tags pg2) k = some (.s v2)) := by
  constructor
  · rw [extract_meta_tags, hm]
    have hstep1 : ∀ d0 : List (String × MVal), dictGet d0 "og:image" = none →
        metaLoopStep d0 ⟨none, some "og:image", some c1⟩ =
          dictInsert d0 "og:image" (.l [c1]) := by
      intro d0 hd0
      rw [metaLoopStep]
      simp only [Option.getD]
      rw [if_pos ⟨by decide, h1⟩, if_pos (by decide), hd0]
    rw [List.foldl_cons, List.foldl_cons, List.foldl_nil]
    rw [hstep1 _ (by simp [dictGet])]
    rw [metaLoopStep]
    simp only [Option.getD]
    rw [if_pos ⟨by decide, h2⟩, if_pos (by decide)]
    rw [dictGet_dictInsert, if_pos rfl]
    refine metaPostProcess_preserves_present hfav htit ?_
    rw [dictGet_dictInsert, dictGet_dictInsert, if_pos rfl]
    rfl
  · intro pg2 k v1 v2 hm2 hmulti hk hv1 hv2 hfav2 htit2
    rw [extract_meta_tags, hm2]
    rw [List.foldl_cons, List.foldl_cons, List.foldl_nil]
    rw [metaLoopStep]
    simp only [Option.getD]
    rw [if_pos ⟨hk, hv2⟩, if_neg hmulti]
    rw [metaLoopStep]
    simp only [Option.getD]
    rw [if_pos ⟨hk, hv1⟩, if_neg hmulti]
    refine metaPostProcess_preserves_present hfav2 htit2 ?_
    rw [dictGet_dictInsert, if_pos rfl]

/-- C8 witness: two og:image tags and a custom repeated key. -/
theorem C8_meta_accumulation_witness :
    dictGet (extract_meta_tags
        ⟨"id1", "http://u/", none,
         [⟨none, some "og:image", some "i1.png"⟩,
          ⟨none, some "og:image", some "i2.png"⟩], none, none⟩) "og:image" =
      some (.l ["i1.png", "i2.png"]) ∧
    (∀ (pg2 : PageMeta) (k v1 v2 : String),
      pg2.metas = [⟨some k, none, some v1⟩, ⟨some k, none, some v2⟩] →
      k ∉ multiValuedKeys → k ≠ "" → v1 ≠ "" → v2 ≠ "" →
      pg2.faviconHref = none → pg2.titleText = none →
      dictGet (extract_meta_tags pg2) k = some (.s v2)) :=
  C8_meta_accumulation
    ⟨"id1", "http://u/", none,
     [⟨none, some "og:image", some "i1.png"⟩,
      ⟨none, some "og:image", some "i2.png"⟩], none, none⟩
    "i1.png" "i2.png" rfl rfl rfl (by decide) (by decide)

/-! ## Claim C9 -/

/-- C9: stitching a page with totalHeight 1000 and viewportHeight 400
invokes the scroll-and-capture callback exactly 3 times, at vertical
offsets 0, 400 and 800, and the stitched canvas has dimensions exactly
(totalWidth, 1000). -/
theorem C9_stitching_1000_400 (totalWidth : Nat) (captureAt : Nat → Image) :
    capture_full_page 1000 totalWidth 400 captureAt =
      (⟨totalWidth, 1000⟩, [0, 400, 800]) ∧
    (capture_full_page 1000 totalWidth 400 captureAt).2.length = 3 := by
  have hr : pyRange 0 1000 400 = [0, 400, 800] := by decide
  constructor
  · rw [capture_full_page, hr]
    simp [pasteImage]
  · rw [capture_full_page, hr]
    rfl

/-! ## Claim C10 -/

theorem collect_go_none (b : Option String) (cur : String)
    (hrefs : List String) :
    hrefs.foldl (collectLinkStep b cur none) none = none := by
  induction hrefs with
  | nil => rfl
  | cons h t ih => simpa [collectLinkStep] using ih

theorem collect_go_ok (b : Option String) (cur : String) (hrefs : List String)
    (hok : ∀ h ∈ hrefs, normalize_url b cur h ≠ .raised) (acc : List String) :
    hrefs.foldl (collectLinkStep b cur none) (some acc) =
      some (acc ++ hrefs.filterMap (extractOkLink b cur)) := by
  induction hrefs generalizing acc with
  | nil => simp
  | cons h t ih =>
    rw [List.foldl_cons]
    have hh := hok h (List.mem_cons_self _ _)
    rcases hn : normalize_url b cur h with _ | _ | u
    · exact absurd hn hh
    · rw [show collectLinkStep b cur none (some acc) h = some acc from by
        simp [collectLinkStep, hn]]
      rw [ih (fun x hx => hok x (List.mem_cons_of_mem _ hx)) acc]
      simp [List.filterMap_cons, extractOkLink, hn]
    · rw [show collectLinkStep b cur none (some acc) h = some (acc ++ [u]) from by
        simp [collectLinkStep, hn]]
      rw [ih (fun x hx => hok x (List.mem_cons_of_mem _ hx)) (acc ++ [u])]
      simp [List.filterMap_cons, extractOkLink, hn]

theorem collect_go_raised (b : Option String) (cur : String)
    (hrefs : List String) (hex : ∃ h ∈ hrefs, normalize_url b cur h = .raised)
    (acc : List String) :
    hrefs.foldl (collectLinkStep b cur none) (some acc) = none := by
  induction hrefs generalizing acc with
  | nil => simp at hex
  | cons h t ih =>
    rw [List.foldl_cons]
    rcases hn : normalize_url b cur h with _ | _ | u
    · rw [show collectLinkStep b cur none (some acc) h = none from by
        simp [collectLinkStep, hn]]
      exact collect_go_none b cur t
    · obtain ⟨x, hx, hxr⟩ := hex
      rcases List.mem_cons.mp hx with rfl | hx
      · rw [hn] at hxr
        exact absurd hxr (by simp)
      · rw [show collectLinkStep b cur none (some acc) h = some acc from by
          simp [collectLinkStep, hn]]
        exact ih ⟨x, hx, hxr⟩ acc
    · obtain ⟨x, hx, hxr⟩ := hex
      rcases List.mem_cons.mp hx with rfl | hx
      · rw [hn] at hxr
        exact absurd hxr (by simp)
      · rw [show collectLinkStep b cur none (some acc) h = some (acc ++ [u]) from by
          simp [collectLinkStep, hn]]
        exact ih ⟨x, hx, hxr⟩ (acc ++ [u])

/-- C10: the `"links"` output for a page is a duplicate-free list of the
normalized urls, sorted in ascending lexicographic string order, and it is
invariant under any permutation of the document order of the page's
anchors — document order is not preserved. -/
theorem C10_links_sorted_dedup_order_free (cur : String)
    (hrefs1 hrefs2 : List String) (hperm : hrefs1.Perm hrefs2) :
    (mapLinks none cur none hrefs1).Sorted (· ≤ ·) ∧
    (mapLinks none cur none hrefs1).Nodup ∧
    mapLinks none cur none hrefs1 = mapLinks none cur none hrefs2 := by
  have hsorted : ∀ l : List String, (pySortedSet l).Sorted (· ≤ ·) :=
    fun l => List.sorted_insertionSort _ _
  have hnodup : ∀ l : List String, (pySortedSet l).Nodup :=
    fun l => ((List.perm_insertionSort _ _).nodup_iff).mpr (List.nodup_dedup l)
  by_cases hex : ∃ h ∈ hrefs1, normalize_url none cur h = .raised
  · have hex2 : ∃ h ∈ hrefs2, normalize_url none cur h = .raised := by
      obtain ⟨x, hx, hxr⟩ := hex
      exact ⟨x, hperm.mem_iff.mp hx, hxr⟩
    rw [mapLinks, mapLinks, collectLinks, collectLinks,
      collect_go_raised _ _ _ hex _, collect_go_raised _ _ _ hex2 _]
    exact ⟨by simp, by simp, rfl⟩
  · push_neg at hex
    have hex2 : ∀ h ∈ hrefs2, normalize_url none cur h ≠ .raised := fun h hh =>
      hex h (hperm.mem_iff.mpr hh)
    rw [mapLinks, mapLinks, collectLinks, collectLinks,
      collect_go_ok _ _ _ hex _, collect_go_ok _ _ _ hex2 _]
    simp only [List.nil_append]
    refine ⟨hsorted _, hnodup _, ?_⟩
    have hpfm := hperm.filterMap (extractOkLink none cur)
    have hpd := hpfm.dedup
    exact List.eq_of_perm_of_sorted
      ((List.perm_insertionSort _ _).trans
        (hpd.trans (List.perm_insertionSort _ _).symm))
      (List.sorted_insertionSort _ _) (List.sorted_insertionSort _ _)

/-- C10 witness: three anchors, one duplicated, offered in two different
document orders. -/
theorem C10_links_witness :
    (mapLinks none "http://c.com/" none
        ["http://b.com/", "http://a.com/", "http://b.com/"]).Sorted (· ≤ ·) ∧
    (mapLinks none "http://c.com/" none
        ["http://b.com/", "http://a.com/", "http://b.com/"]).Nodup ∧
    mapLinks none "http://c.com/" none
        ["http://b.com/", "http://a.com/", "http://b.com/"] =
      mapLinks none "http://c.com/" none
        ["http://a.com/", "http://b.com/", "http://b.com/"] :=
  C10_links_sorted_dedup_order_free "http://c.com/"
    ["http://b.com/", "http://a.com/", "http://b.com/"]
    ["http://a.com/", "http://b.com/", "http://b.com/"] (by decide)

end Monkey
